import Mathlib

/-!
Verification of the test-data lifecycle and model-comparison engine of the
web-test-framework repository, against its natural-language specification.

The comparison engine is embedded from `src/models/comparison/modelAssertions.ts`,
the entity registry from `src/utils/testDataStorage.ts`, the fixture generator
from `src/generator/dataGenerator.ts`, and the cleanup-collection hook from
`src/requesters/httpClient.ts`.

JavaScript values that flow through the comparator (JSON-like trees plus
`undefined`) are modelled by the inductive type `JVal`.  JavaScript numbers are
modelled as integers (every number appearing in the comparison claims is an
integer; no numeric tolerance exists in the source).  Code that can throw a
JavaScript `TypeError` (the `in` operator applied to a non-object) is embedded
in `Except String`.
-/

inductive JVal where
  | vnull
  | vundefined
  | vbool (b : Bool)
  | vnum (n : Int)
  | vstr (s : String)
  | varr (elems : List JVal)
  | vobj (fields : List (String × JVal))

/-- JavaScript `typeof` on a `JVal` (`typeof null` is `"object"`). -/
def jsTypeof : JVal → String
  | .vnull => "object"
  | .vundefined => "undefined"
  | .vbool _ => "boolean"
  | .vnum _ => "number"
  | .vstr _ => "string"
  | .varr _ => "object"
  | .vobj _ => "object"

def JVal.isNullB : JVal → Bool
  | .vnull => true
  | _ => false

def JVal.isUndefB : JVal → Bool
  | .vundefined => true
  | _ => false

/-- JavaScript `Array.isArray`. -/
def JVal.isArrayB : JVal → Bool
  | .varr _ => true
  | _ => false

/-- The test `typeof v === 'object' && v !== null` used by the source. -/
def JVal.isObjLike (v : JVal) : Bool :=
  (jsTypeof v == "object") && !(v.isNullB)

/-- JavaScript truthiness of a value. -/
def jsTruthy : JVal → Bool
  | .vnull => false
  | .vundefined => false
  | .vbool b => b
  | .vnum n => n != 0
  | .vstr s => s != ""
  | .varr _ => true
  | .vobj _ => true

/-- JavaScript `a || b`: returns `a` when truthy, else `b`. -/
def jsOrVal (a b : JVal) : JVal :=
  if jsTruthy a then a else b

mutual

/-- JavaScript `String(v)` coercion. -/
def jsToString : JVal → String
  | .vnull => "null"
  | .vundefined => "undefined"
  | .vbool true => "true"
  | .vbool false => "false"
  | .vnum n => toString n
  | .vstr s => s
  | .varr xs => jsToStringElems xs
  | .vobj _ => "[object Object]"

/-- JavaScript array-to-string: elements joined by commas. -/
def jsToStringElems : List JVal → String
  | [] => ""
  | [x] => jsToStringElem x
  | x :: rest => jsToStringElem x ++ "," ++ jsToStringElems rest
termination_by structural xs => xs

/-- One array element under `String(...)`: `null` and `undefined` render as
the empty string, every other value as its `String(...)` form (the non-null
cases repeat `jsToString` so that the mutual recursion descends structurally). -/
def jsToStringElem : JVal → String
  | .vnull => ""
  | .vundefined => ""
  | .vbool true => "true"
  | .vbool false => "false"
  | .vnum n => toString n
  | .vstr s => s
  | .varr xs => jsToStringElems xs
  | .vobj _ => "[object Object]"
termination_by structural v => v

end

/-- JavaScript strict equality `===` restricted to the values that reach the
scalar branch of the comparator: scalars of equal type compare by value, and
every mixed-type pair (in particular `null` against an object, the only
non-scalar pair reachable there) compares unequal. -/
def jsStrictEq : JVal → JVal → Bool
  | .vnull, .vnull => true
  | .vundefined, .vundefined => true
  | .vbool a, .vbool b => a == b
  | .vnum a, .vnum b => a == b
  | .vstr a, .vstr b => a == b
  | _, _ => false

/-- First field of a JavaScript object with the given name (objects have
unique keys; our lists take the first occurrence). Absent keys read as
`undefined`. -/
def lookupField (k : String) : List (String × JVal) → JVal
  | [] => .vundefined
  | p :: fs => if p.1 == k then p.2 else lookupField k fs

def hasFieldKey (k : String) (fs : List (String × JVal)) : Bool :=
  fs.any (fun p => p.1 == k)

/-- A property key as produced by a JavaScript `for...in` loop: array
iteration yields index keys, object iteration yields name keys. -/
inductive JKey where
  | idx (i : Nat)
  | name (s : String)

def JKey.str : JKey → String
  | .idx i => toString i
  | .name s => s

/-- Error raised by the JavaScript `in` operator on a non-object operand. -/
def jsInTypeError : String :=
  "TypeError: cannot use the in operator to search in a non-object"

/-- JavaScript `key in v`.  Throws a `TypeError` when `v` is not an object
(`null`, `undefined` or a scalar).  Array membership holds for canonical
index strings below the length. -/
def jsHasKey (k : JKey) (v : JVal) : Except String Bool :=
  match v with
  | .vobj fs => .ok (hasFieldKey k.str fs)
  | .varr es =>
    match k with
    | .idx i => .ok (decide (i < es.length))
    | .name s => .ok ((List.range es.length).any (fun j => toString j == s))
  | _ => .error jsInTypeError

/-- JavaScript property read `v[key]` for the keys used by the comparator
(only evaluated after `key in v` succeeded; reads on non-objects yield
`undefined`). -/
def jsGet (k : JKey) (v : JVal) : JVal :=
  match v with
  | .vobj fs => lookupField k.str fs
  | .varr es =>
    match k with
    | .idx i => es.getD i .vundefined
    | .name s =>
      match (List.range es.length).find? (fun j => toString j == s) with
      | some j => es.getD j .vundefined
      | none => .vundefined
  | _ => .vundefined

/-- `ComparisonOptions` from `modelAssertions.ts`.  `none` models an absent
field (the unused `customRules` hook is never read by the comparison code and
is omitted). -/
structure ComparisonOptions where
  ignoreFields : Option (List String) := none
  ignoreNullValues : Option Bool := none
  ignoreUndefinedValues : Option Bool := none
  caseSensitive : Option Bool := none

/-- The static `defaultOptions` of `ModelAssertions`. -/
def defaultOptions : ComparisonOptions :=
  { ignoreFields := some []
    ignoreNullValues := some false
    ignoreUndefinedValues := some false
    caseSensitive := some true }

/-- The object spread `{ ...this.defaultOptions, ...options }`: a field
present in `options` wins, otherwise the default applies. -/
def mergeOptions (o : ComparisonOptions) : ComparisonOptions :=
  { ignoreFields := some (o.ignoreFields.getD [])
    ignoreNullValues := some (o.ignoreNullValues.getD false)
    ignoreUndefinedValues := some (o.ignoreUndefinedValues.getD false)
    caseSensitive := some (o.caseSensitive.getD true) }

/-- `options.ignoreFields?.includes(key)` (absent list reads as `undefined`,
which is falsy). -/
def ignoresKey (o : ComparisonOptions) (k : String) : Bool :=
  match o.ignoreFields with
  | some l => l.contains k
  | none => false

/-- Truthiness of `options.ignoreNullValues`. -/
def nullIgnored (o : ComparisonOptions) : Bool :=
  o.ignoreNullValues.getD false

/-- Truthiness of `options.ignoreUndefinedValues`. -/
def undefIgnored (o : ComparisonOptions) : Bool :=
  o.ignoreUndefinedValues.getD false

/-- Truthiness of `options.caseSensitive`. -/
def caseSensitiveOn (o : ComparisonOptions) : Bool :=
  o.caseSensitive.getD false

/-- The difference text pushed on a typeof mismatch. -/
def typeMismatchMsg (expected actual : JVal) (path : String) : String :=
  path ++ ": Expected type " ++ jsTypeof expected ++ ", got " ++ jsTypeof actual

/-- The difference text pushed on an array length mismatch. -/
def lengthMismatchMsg (elen alen : Nat) (path : String) : String :=
  path ++ ": Expected array length " ++ toString elen ++ ", got " ++ toString alen

/-- The difference text pushed on a scalar value mismatch. -/
def scalarMismatchMsg (expected actual : JVal) (path : String) : String :=
  path ++ ": Expected \"" ++ jsToString expected ++ "\", got \"" ++
    jsToString actual ++ "\""

/-- The scalar (`else`) branch of `compareObjectRecursive`: strict comparison
when `options.caseSensitive` is truthy, otherwise comparison of the lowercased
stringified forms. -/
def compareScalarValues (expected actual : JVal) (path : String)
    (differences missingFields : List String) (options : ComparisonOptions) :
    Except String (List String × List String) :=
  if caseSensitiveOn options then
    if jsStrictEq expected actual then .ok (differences, missingFields)
    else .ok (differences ++ [scalarMismatchMsg expected actual path], missingFields)
  else
    if (jsToString expected).toLower == (jsToString actual).toLower then
      .ok (differences, missingFields)
    else .ok (differences ++ [scalarMismatchMsg expected actual path], missingFields)

mutual

/-- `ModelAssertions.compareObjectRecursive`.  The accumulated `differences`
and `missingFields` arrays are threaded explicitly; a thrown `TypeError`
surfaces as `Except.error`. -/
def compareObjectRecursive (expected actual : JVal) (path : String)
    (differences missingFields : List String) (options : ComparisonOptions) :
    Except String (List String × List String) :=
  if expected.isNullB && actual.isNullB then .ok (differences, missingFields)
  else if expected.isUndefB && actual.isUndefB then .ok (differences, missingFields)
  else if expected.isNullB && nullIgnored options then .ok (differences, missingFields)
  else if expected.isUndefB && undefIgnored options then .ok (differences, missingFields)
  else if jsTypeof expected != jsTypeof actual then
    .ok (differences ++ [typeMismatchMsg expected actual path], missingFields)
  else
    match expected, actual with
    | .varr es, .varr as =>
      -- call to `compareArrays`, inlined so that the recursion stays structural;
      -- `compareArrays` below is defined as exactly this expression
      if es.length != as.length then
        .ok (differences ++ [lengthMismatchMsg es.length as.length path],
          missingFields)
      else compareArraysLoop es as 0 path differences missingFields options
    | .varr _, _ =>
      .ok (differences ++ [path ++ ": Expected array, got object"], missingFields)
    | .vobj _, .varr _ =>
      .ok (differences ++ [path ++ ": Expected object, got array"], missingFields)
    | .vobj fs, _ =>
      compareObjectsRecursive fs actual path differences missingFields options
    | _, _ =>
      compareScalarValues expected actual path differences missingFields options
termination_by structural expected

/-- The `for (let i = 0; i < expected.length; i++)` loop of `compareArrays`:
walks the remaining expected elements while reading `actual[i]` by absolute
index. -/
def compareArraysLoop (expectedRest : List JVal) (actual : List JVal) (i : Nat)
    (path : String) (differences missingFields : List String)
    (options : ComparisonOptions) : Except String (List String × List String) :=
  match expectedRest with
  | [] => .ok (differences, missingFields)
  | e :: rest => do
    let (d, m) ← compareObjectRecursive e (actual.getD i .vundefined)
      (path ++ "[" ++ toString i ++ "]") differences missingFields options
    compareArraysLoop rest actual (i + 1) path d m options
termination_by structural expectedRest

/-- `ModelAssertions.compareObjectsRecursive`: the `for (const key in
expected)` loop, walking the expected object's fields.  `key in actual`
throws when `actual` is `null`. -/
def compareObjectsRecursive (expectedFields : List (String × JVal)) (actual : JVal)
    (path : String) (differences missingFields : List String)
    (options : ComparisonOptions) : Except String (List String × List String) :=
  match expectedFields with
  | [] => .ok (differences, missingFields)
  | p :: rest =>
    if ignoresKey options p.1 then
      compareObjectsRecursive rest actual path differences missingFields options
    else
      let fullPath := if path == "" then p.1 else path ++ "." ++ p.1
      do
        let has ← jsHasKey (.name p.1) actual
        if has then do
          let (d, m) ← compareObjectRecursive p.2 (jsGet (.name p.1) actual)
            fullPath differences missingFields options
          compareObjectsRecursive rest actual path d m options
        else
          compareObjectsRecursive rest actual path differences
            (missingFields ++ [fullPath]) options
termination_by structural expectedFields

end

/-- `ModelAssertions.compareArrays`: record a single length mismatch, or
compare positionally.  (Inside `compareObjectRecursive` this body appears
inlined; this definition is the named form.) -/
def compareArrays (expected actual : List JVal) (path : String)
    (differences missingFields : List String) (options : ComparisonOptions) :
    Except String (List String × List String) :=
  if expected.length != actual.length then
    .ok (differences ++ [lengthMismatchMsg expected.length actual.length path],
      missingFields)
  else compareArraysLoop expected actual 0 path differences missingFields options

mutual

/-- `ModelAssertions.findExtraFields`: the second, independent traversal over
`actual`.  Returns early when `actual` is not an object or is `null`;
otherwise iterates `actual`'s keys, where `key in expected` throws if
`expected` is not an object. -/
def findExtraFields (expected actual : JVal) (path : String)
    (extraFields : List String) (options : ComparisonOptions) :
    Except String (List String) :=
  match actual with
  | .vobj afs => findExtraObjLoop expected afs path extraFields options
  | .varr aes => findExtraArrLoop expected aes 0 path extraFields options
  | _ => .ok extraFields

/-- The `for (const key in actual)` loop of `findExtraFields` over an object. -/
def findExtraObjLoop (expected : JVal) (actualFields : List (String × JVal))
    (path : String) (extraFields : List String) (options : ComparisonOptions) :
    Except String (List String) :=
  match actualFields with
  | [] => .ok extraFields
  | p :: rest =>
    if ignoresKey options p.1 then
      findExtraObjLoop expected rest path extraFields options
    else
      let fullPath := if path == "" then p.1 else path ++ "." ++ p.1
      do
        let has ← jsHasKey (.name p.1) expected
        if !has then
          findExtraObjLoop expected rest path (extraFields ++ [fullPath]) options
        else if p.2.isObjLike then do
          let acc ← findExtraFields (jsGet (.name p.1) expected) p.2 fullPath
            extraFields options
          findExtraObjLoop expected rest path acc options
        else
          findExtraObjLoop expected rest path extraFields options

/-- The `for (const key in actual)` loop of `findExtraFields` over an array:
keys are the canonical index strings. -/
def findExtraArrLoop (expected : JVal) (actualRest : List JVal) (i : Nat)
    (path : String) (extraFields : List String) (options : ComparisonOptions) :
    Except String (List String) :=
  match actualRest with
  | [] => .ok extraFields
  | a :: rest =>
    if ignoresKey options (toString i) then
      findExtraArrLoop expected rest (i + 1) path extraFields options
    else
      let fullPath := if path == "" then toString i else path ++ "." ++ toString i
      do
        let has ← jsHasKey (.idx i) expected
        if !has then
          findExtraArrLoop expected rest (i + 1) path (extraFields ++ [fullPath]) options
        else if a.isObjLike then do
          let acc ← findExtraFields (jsGet (.idx i) expected) a fullPath
            extraFields options
          findExtraArrLoop expected rest (i + 1) path acc options
        else
          findExtraArrLoop expected rest (i + 1) path extraFields options

end

/-- `ComparisonResult` from `modelAssertions.ts`. -/
structure ComparisonResult where
  success : Bool
  differences : List String
  missingFields : List String
  extraFields : List String
deriving DecidableEq

/-- `ModelAssertions.compareObjects`: merge the options with the defaults, run
the recursive comparison, then the independent extra-field walk, and aggregate
success. -/
def compareObjects (expected actual : JVal)
    (options : ComparisonOptions := {}) : Except String ComparisonResult := do
  let merged := mergeOptions options
  let (differences, missingFields) ←
    compareObjectRecursive expected actual "" [] [] merged
  let extraFields ← findExtraFields expected actual "" [] merged
  .ok { success := differences.length == 0 && missingFields.length == 0 &&
          extraFields.length == 0
        differences := differences
        missingFields := missingFields
        extraFields := extraFields }

/-- JavaScript `message || defaultText` for an optional string parameter. -/
def jsStrOr (message : Option String) (dflt : String) : String :=
  match message with
  | some s => if s == "" then dflt else s
  | none => dflt

/-- `ModelAssertions.formatComparisonError`. -/
def formatComparisonError (result : ComparisonResult) (message : Option String) :
    String :=
  let base := match message with
    | some msg => if msg == "" then [] else [msg]
    | none => []
  let parts := base ++
    (if result.differences.length > 0 then
      "Differences found:" :: result.differences.map (fun d => "  - " ++ d)
     else []) ++
    (if result.missingFields.length > 0 then
      "Missing fields:" :: result.missingFields.map (fun f => "  - " ++ f)
     else []) ++
    (if result.extraFields.length > 0 then
      "Extra fields:" :: result.extraFields.map (fun f => "  - " ++ f)
     else [])
  String.intercalate "\n" parts

/-- `ModelAssertions.assertContains`: compares the expected fields against the
container and throws exactly when differences or missing fields were found. -/
def assertContains (container expectedFields : JVal)
    (message : Option String := none) (options : ComparisonOptions := {}) :
    Except String Unit := do
  let result ← compareObjects expectedFields container options
  if result.differences.length > 0 || result.missingFields.length > 0 then
    .error (formatComparisonError result
      (some (jsStrOr message "Object does not contain expected fields")))
  else .ok ()

/-- The entity kinds of `TestEntity` in `testDataStorage.ts`. -/
inductive EntityType where
  | project
  | buildType
  | user
deriving DecidableEq

/-- The string the kind interpolates to in log messages. -/
def EntityType.str : EntityType → String
  | .project => "project"
  | .buildType => "buildType"
  | .user => "user"

/-- Outcome of invoking an entity's `cleanupMethod`: the promise either
resolves or rejects with an error. -/
inductive CleanupOutcome where
  | resolves
  | rejects (err : String)
deriving DecidableEq

/-- `TestEntity` from `testDataStorage.ts`.  The fields are `any`-typed
payload values at runtime, hence `JVal`. -/
structure TestEntity where
  type : EntityType
  id : JVal
  name : JVal := .vundefined
  username : JVal := .vundefined
  cleanupMethod : CleanupOutcome

/-- The `TestDataStorage` singleton's state: the ordered entity sequence. -/
structure TestDataStorage where
  entities : List TestEntity

/-- Observable effects of a cleanup run: which callbacks were invoked (kind
and id, in registration order) and which warnings `console.warn` received. -/
structure CleanupTrace where
  invoked : List (EntityType × JVal)
  warnings : List String

/-- The body of the `async` closure `cleanupAll` maps over one entity:
`try { await entity.cleanupMethod() } catch { console.warn(...) }` — the
callback is always invoked, and a rejection is converted into one warning
naming the entity's kind and id. -/
def cleanupEntity (e : TestEntity) : CleanupTrace :=
  { invoked := [(e.type, e.id)]
    warnings :=
      match e.cleanupMethod with
      | .resolves => []
      | .rejects err =>
        ["Failed to cleanup " ++ e.type.str ++ " " ++ jsToString e.id ++ ": " ++ err] }

/-- `Promise.all` over the mapped cleanup closures.  Each closure catches its
own rejection, so the join never rejects; effects are collected in sequence
order. -/
def runCleanups : List TestEntity → CleanupTrace
  | [] => { invoked := [], warnings := [] }
  | e :: rest =>
    let t := cleanupEntity e
    let tr := runCleanups rest
    { invoked := t.invoked ++ tr.invoked, warnings := t.warnings ++ tr.warnings }

/-- `TestDataStorage.cleanupAll`: run every cleanup, then unconditionally set
`this.entities = []`. -/
def cleanupAll (s : TestDataStorage) : CleanupTrace × TestDataStorage :=
  (runCleanups s.entities, { entities := [] })

/-- Substring search on character lists (helper for `String.includes`). -/
def charIncludes (needle : List Char) : List Char → Bool
  | [] => List.isPrefixOf needle []
  | c :: rest => List.isPrefixOf needle (c :: rest) || charIncludes needle rest

/-- JavaScript `hay.includes(sub)` on strings. -/
def strIncludes (hay sub : String) : Bool :=
  charIncludes sub.data hay.data

/-- JavaScript property read `v.key` (plain member access, never throws for
the truthy receivers it is applied to; absent members read as `undefined`). -/
def propGet (k : String) (v : JVal) : JVal :=
  match v with
  | .vobj fs => lookupField k fs
  | _ => .vundefined

/-- The slice of `ApiResponse` from `httpClient.ts` that the cleanup hook
reads (`headers` and the error text are plumbing the hook never touches). -/
structure ApiResponseModel where
  status : Nat
  data : JVal
  url : String
  success : Bool

/-- `HttpClient.collectCreatedEntity`: on a successful response with a truthy
body, classify the entity kind by URL substring (buildTypes, then users,
defaulting to project), pick the identifying field (`id`, else `username`,
else the empty string), and register a cleanup entity.  The registered
callback is the mock `console.log` cleanup, which always resolves. -/
def collectCreatedEntity (url : String) (requestData : JVal)
    (response : ApiResponseModel) (storage : List TestEntity) : List TestEntity :=
  if response.success && jsTruthy response.data then
    let entityId0 := jsOrVal (propGet "id" response.data)
      (jsOrVal (propGet "username" response.data) (.vstr ""))
    let entityName := jsOrVal (propGet "name" response.data) (.vstr "")
    let kindAndId : EntityType × JVal :=
      if strIncludes url "/app/rest/buildTypes" then (.buildType, entityId0)
      else if strIncludes url "/app/rest/users" then
        (.user, jsOrVal (propGet "username" response.data) entityId0)
      else (.project, entityId0)
    storage ++ [{ type := kindAndId.1
                  id := kindAndId.2
                  name := entityName
                  username := propGet "username" response.data
                  cleanupMethod := .resolves }]
  else storage

/-- Oracle for the faker library calls the generator makes, indexed by a
per-process call counter: `faker.word.adjective()` draws and
`faker.date.recent().toISOString()` draws.  The generator's only inputs are
these draws — it reads no clock and keeps no counter of its own. -/
structure FakerStream where
  adjectiveAt : Nat → String
  recentIsoAt : Nat → String

/-- The `.replace(/[-:.]/g, '')` cleanup in `DataGenerator.getCurrentDateTime`. -/
def stripDatePunct (s : String) : String :=
  ⟨s.data.filter (fun c => !(c == '-' || c == ':' || c == '.'))⟩

/-- `DataGenerator.getCurrentDateTime`: the ISO string of a faker-generated
recent date with punctuation stripped, consuming one draw. -/
def getCurrentDateTime (fk : FakerStream) (k : Nat) : String × Nat :=
  (stripDatePunct (fk.recentIsoAt k), k + 1)

/-- One `faker.word.adjective()` call. -/
def fakerAdjective (fk : FakerStream) (k : Nat) : String × Nat :=
  (fk.adjectiveAt k, k + 1)

/-- First field value with the given name, if present. -/
def findField (k : String) : List (String × JVal) → Option JVal
  | [] => none
  | p :: fs => if p.1 == k then some p.2 else findField k fs

/-- The object spread `{ ...baseData, ...overrides }`: base keys keep their
position but an override value wins, and override-only keys are appended in
order. -/
def spreadMerge (base overrides : List (String × JVal)) : List (String × JVal) :=
  base.map (fun p => (p.1, (findField p.1 overrides).getD p.2)) ++
    overrides.filter (fun q => !(hasFieldKey q.1 base))

/-- `DataGenerator.generateProjectData`: field initializers evaluate in
source order (name: date draw then adjective draw; id: adjective draw then
date draw), then the overrides are spread over the base data. -/
def generateProjectData (fk : FakerStream) (k : Nat)
    (overrides : List (String × JVal) := []) : JVal × Nat :=
  let (t1, k1) := getCurrentDateTime fk k
  let (a1, k2) := fakerAdjective fk k1
  let (a2, k3) := fakerAdjective fk k2
  let (t2, k4) := getCurrentDateTime fk k3
  let baseData : List (String × JVal) :=
    [("locator", .vstr "_Root"),
     ("name", .vstr (t1 ++ "_" ++ a1)),
     ("id", .vstr (a2 ++ "_" ++ t2)),
     ("copyAllAssociatedSettings", .vbool true)]
  (.vobj (spreadMerge baseData overrides), k4)

/-- `n` successive `generateProjectData()` calls in one process, threading the
faker call counter. -/
def runProjectGen (fk : FakerStream) : Nat → Nat → List JVal
  | 0, _ => []
  | n + 1, k =>
    let (v, k') := generateProjectData fk k
    v :: runProjectGen fk n k'

/-- Pairwise-distinct field names at one object level. -/
def keysUniqueB : List (String × JVal) → Bool
  | [] => true
  | p :: fs => !(hasFieldKey p.1 fs) && keysUniqueB fs

mutual

/-- Well-formed trees: every object level has pairwise-distinct keys (a
JavaScript object cannot hold duplicate keys). -/
def jwf : JVal → Bool
  | .varr es => jwfList es
  | .vobj fs => keysUniqueB fs && jwfFields fs
  | _ => true

def jwfList : List JVal → Bool
  | [] => true
  | x :: xs => jwf x && jwfList xs

def jwfFields : List (String × JVal) → Bool
  | [] => true
  | p :: fs => jwf p.2 && jwfFields fs

end

/-- The index-wise lock-step walk the specification describes for equal-length
arrays: element `i` of expected against element `i` of actual, by structural
descent on both lists in parallel. -/
def positionalSpec : List JVal → List JVal → Nat → String → List String →
    List String → ComparisonOptions → Except String (List String × List String)
  | [], _, _, _, d, m, _ => .ok (d, m)
  | _ :: _, [], _, _, d, m, _ => .ok (d, m)
  | e :: es, a :: as, i, path, d, m, o => do
    let (d', m') ← compareObjectRecursive e a (path ++ "[" ++ toString i ++ "]") d m o
    positionalSpec es as (i + 1) path d' m' o

/-! ### Auxiliary lemmas -/

/-- Member-wise induction principle for the nested inductive `JVal`. -/
theorem JVal.indOn (P : JVal → Prop) (hnull : P .vnull) (hundef : P .vundefined)
    (hbool : ∀ b, P (.vbool b)) (hnum : ∀ n, P (.vnum n)) (hstr : ∀ s, P (.vstr s))
    (harr : ∀ es, (∀ x ∈ es, P x) → P (.varr es))
    (hobj : ∀ fs, (∀ p ∈ fs, P p.2) → P (.vobj fs)) : ∀ v, P v := by
  have key : ∀ n (v : JVal), sizeOf v < n → P v := by
    intro n
    induction n with
    | zero => exact fun v hv => absurd hv (Nat.not_lt_zero _)
    | succ n ih =>
      intro v hv
      match v with
      | .vnull => exact hnull
      | .vundefined => exact hundef
      | .vbool b => exact hbool b
      | .vnum m => exact hnum m
      | .vstr s => exact hstr s
      | .varr es =>
        refine harr es (fun x hx => ih x ?_)
        have h1 := List.sizeOf_lt_of_mem hx
        have h2 : sizeOf (JVal.varr es) = 1 + sizeOf es := by simp
        omega
      | .vobj fs =>
        refine hobj fs (fun p hp => ih p.2 ?_)
        have h1 := List.sizeOf_lt_of_mem hp
        have h2 : sizeOf (JVal.vobj fs) = 1 + sizeOf fs := by simp
        have h3 : sizeOf p.2 < sizeOf p := by
          obtain ⟨a, b⟩ := p
          simp only [Prod.mk.sizeOf_spec]
          omega
        omega
  exact fun v => key (sizeOf v + 1) v (Nat.lt_succ_self _)

theorem jwfList_mem {es : List JVal} (h : jwfList es = true) {x : JVal}
    (hx : x ∈ es) : jwf x = true := by
  induction es with
  | nil => cases hx
  | cons y ys ih =>
    rw [jwfList, Bool.and_eq_true] at h
    rcases List.mem_cons.mp hx with rfl | hx
    · exact h.1
    · exact ih h.2 hx

theorem jwfFields_mem {fs : List (String × JVal)} (h : jwfFields fs = true)
    {p : String × JVal} (hp : p ∈ fs) : jwf p.2 = true := by
  induction fs with
  | nil => cases hp
  | cons q qs ih =>
    rw [jwfFields, Bool.and_eq_true] at h
    rcases List.mem_cons.mp hp with rfl | hp
    · exact h.1
    · exact ih h.2 hp

theorem hasFieldKey_of_mem {fs : List (String × JVal)} {p : String × JVal}
    (hp : p ∈ fs) : hasFieldKey p.1 fs = true := by
  rw [hasFieldKey, List.any_eq_true]
  exact ⟨p, hp, by simp⟩

theorem lookupField_of_uniq {fs : List (String × JVal)} (hu : keysUniqueB fs = true)
    {p : String × JVal} (hp : p ∈ fs) : lookupField p.1 fs = p.2 := by
  induction fs with
  | nil => cases hp
  | cons q qs ih =>
    rw [keysUniqueB, Bool.and_eq_true] at hu
    rcases List.mem_cons.mp hp with rfl | hp
    · simp [lookupField]
    · rw [lookupField]
      have hne : (q.1 == p.1) = false := by
        rcases hq : q.1 == p.1 with _ | _
        · rfl
        · exfalso
          rw [beq_iff_eq] at hq
          have : hasFieldKey q.1 qs = true := hq ▸ hasFieldKey_of_mem hp
          rw [this] at hu
          simp at hu
      rw [hne]
      exact ih hu.2 hp

theorem drop_cons_facts {α} (d : α) :
    ∀ (l : List α) (i : Nat) (a : α) (rest : List α), l.drop i = a :: rest →
      i < l.length ∧ l.getD i d = a ∧ l.drop (i + 1) = rest ∧ a ∈ l := by
  intro l
  induction l with
  | nil => intro i a rest h; rw [List.drop_nil] at h; cases h
  | cons x xs ih =>
    intro i a rest h
    match i with
    | 0 =>
      rw [List.drop] at h
      cases h
      exact ⟨Nat.succ_pos _, rfl, rfl, List.mem_cons_self _ _⟩
    | j + 1 =>
      rw [List.drop_succ_cons] at h
      obtain ⟨h1, h2, h3, h4⟩ := ih j a rest h
      refine ⟨Nat.succ_lt_succ h1, ?_, ?_, List.mem_cons_of_mem _ h4⟩
      · rw [List.getD_cons_succ]; exact h2
      · rw [List.drop_succ_cons]; exact h3


theorem JVal.isNullB_eq (v : JVal) : v.isNullB = true ↔ v = .vnull := by
  cases v <;> simp [JVal.isNullB]

theorem JVal.isUndefB_eq (v : JVal) : v.isUndefB = true ↔ v = .vundefined := by
  cases v <;> simp [JVal.isUndefB]

/-! ### Claims -/

/-- Claim C1: the specification states that the comparison never throws for
well-formed acyclic inputs.  The code contradicts it: the JavaScript `in`
operator is applied to `null` when the expected side is a non-empty object and
the actual side is `null`, and to a scalar when a nested actual value is an
object while the expected value at that key is a scalar — both raise a
`TypeError`, surfaced here as `Except.error`. -/
theorem claim_c1_compare_throws :
    compareObjects (.vobj [("a", .vnum 1)]) .vnull {} = .error jsInTypeError ∧
    compareObjects (.vobj [("a", .vnum 1)]) (.vobj [("a", .vobj [("b", .vnum 2)])]) {}
      = .error jsInTypeError :=
  ⟨rfl, rfl⟩

/-- Claim C2: `cleanupAll` invokes every registered entity's cleanup callback
in sequence order, converts each rejection into exactly one warning naming the
entity's kind and id, never propagates a callback failure, and unconditionally
clears the registry afterwards. -/
theorem claim_c2_cleanup_all_drains :
    ∀ s : TestDataStorage,
      (cleanupAll s).2 = { entities := [] } ∧
      (cleanupAll s).1.invoked = s.entities.map (fun e => (e.type, e.id)) ∧
      (cleanupAll s).1.warnings =
        (s.entities.map (fun e =>
          match e.cleanupMethod with
          | .resolves => []
          | .rejects err =>
            ["Failed to cleanup " ++ e.type.str ++ " " ++ jsToString e.id ++ ": " ++
              err])).flatten := by
  intro s
  obtain ⟨l⟩ := s
  refine ⟨rfl, ?_, ?_⟩ <;>
  · induction l with
    | nil => rfl
    | cons e rest ih =>
      cases h : e.cleanupMethod <;>
        simp_all [cleanupAll, runCleanups, cleanupEntity]

/-- Claim C6: a key of expected absent from actual is reported only in
`missingFields` (with its full path), and a key of actual absent from the
corresponding level of expected is reported only in `extraFields`; the spec's
two concrete instances evaluate accordingly. -/
theorem claim_c6_missing_extra_asymmetry :
    (∀ (k : String) (v : JVal),
      compareObjects (.vobj [(k, v)]) (.vobj []) {} =
        .ok { success := false, differences := [], missingFields := [k],
              extraFields := [] }) ∧
    (∀ (k : String) (v : JVal),
      compareObjects (.vobj []) (.vobj [(k, v)]) {} =
        .ok { success := false, differences := [], missingFields := [],
              extraFields := [k] }) ∧
    compareObjects (.vobj [("a", .vnum 1), ("b", .vnum 2)]) (.vobj [("a", .vnum 1)]) {}
      = .ok { success := false, differences := [], missingFields := ["b"],
              extraFields := [] } ∧
    compareObjects (.vobj [("a", .vnum 1)]) (.vobj [("a", .vnum 1), ("b", .vnum 2)]) {}
      = .ok { success := false, differences := [], missingFields := [],
              extraFields := ["b"] } :=
  ⟨fun _ _ => rfl, fun _ _ => rfl, rfl, rfl⟩

/-- Claim C10: when a successful POST response has a truthy body carrying
neither an `id` nor a `username` field, and the URL matches no special entity
pattern, the cleanup hook still registers an entity — with the empty string as
id and the default `project` classification; registration is not skipped. -/
theorem claim_c10_collect_registers_empty_id :
    ∀ (url : String) (requestData : JVal) (response : ApiResponseModel)
      (storage : List TestEntity),
      response.success = true →
      jsTruthy response.data = true →
      propGet "id" response.data = .vundefined →
      propGet "username" response.data = .vundefined →
      strIncludes url "/app/rest/buildTypes" = false →
      strIncludes url "/app/rest/users" = false →
      collectCreatedEntity url requestData response storage =
        storage ++ [{ type := .project
                      id := .vstr ""
                      name := jsOrVal (propGet "name" response.data) (.vstr "")
                      username := .vundefined
                      cleanupMethod := .resolves }] := by
  intro url requestData response storage hs hd hid hun hb huser
  simp only [collectCreatedEntity, hs, hd, hid, hun, hb, huser]
  simp [jsOrVal, jsTruthy]

/-- Witness for claim C10 at a concrete successful project-creation response
whose body has only a `name` field. -/
theorem claim_c10_collect_registers_empty_id_witness :
    collectCreatedEntity "/app/rest/projects" (.vobj [])
      { status := 200, data := .vobj [("name", .vstr "proj")],
        url := "/app/rest/projects", success := true } [] =
      [] ++ [{ type := .project
               id := .vstr ""
               name := jsOrVal (propGet "name" (JVal.vobj [("name", .vstr "proj")]))
                 (.vstr "")
               username := .vundefined
               cleanupMethod := .resolves }] :=
  claim_c10_collect_registers_empty_id "/app/rest/projects" (.vobj []) _ []
    rfl rfl rfl rfl (by decide) (by decide)

/-- Claim C4: whenever `typeof expected` differs from `typeof actual` (and the
ordered null/undefined tolerance rules that precede the typeof check do not
fire), the recursive comparison records exactly one difference at that path
and returns without descending into either subtree — the result depends only
on the two typeof strings and the path. -/
theorem claim_c4_type_mismatch_short_circuit :
    ∀ (expected actual : JVal) (path : String) (d m : List String)
      (o : ComparisonOptions),
      jsTypeof expected ≠ jsTypeof actual →
      (expected.isNullB && nullIgnored o) = false →
      (expected.isUndefB && undefIgnored o) = false →
      compareObjectRecursive expected actual path d m o =
        .ok (d ++ [path ++ ": Expected type " ++ jsTypeof expected ++ ", got " ++
          jsTypeof actual], m) := by
  intro e a path d m o hty hn hu
  have c1 : (e.isNullB && a.isNullB) = false := by
    cases he : e.isNullB
    · rfl
    · cases ha : a.isNullB
      · rfl
      · exact absurd (by rw [(JVal.isNullB_eq e).mp he, (JVal.isNullB_eq a).mp ha]) hty
  have c2 : (e.isUndefB && a.isUndefB) = false := by
    cases he : e.isUndefB
    · rfl
    · cases ha : a.isUndefB
      · rfl
      · exact absurd (by rw [(JVal.isUndefB_eq e).mp he, (JVal.isUndefB_eq a).mp ha]) hty
  have c5 : (jsTypeof e != jsTypeof a) = true := bne_iff_ne.mpr hty
  rw [compareObjectRecursive.eq_def, c1, if_neg Bool.false_ne_true, c2,
    if_neg Bool.false_ne_true, hn, if_neg Bool.false_ne_true, hu,
    if_neg Bool.false_ne_true, c5, if_pos rfl]
  rfl

/-- Witness for claim C4 at the spec's example: an object against a string,
at path `a`, under the default merged options. -/
theorem claim_c4_type_mismatch_short_circuit_witness :
    compareObjectRecursive (.vobj [("b", .vnum 1)]) (.vstr "x") "a" [] []
      (mergeOptions {}) = .ok (["a: Expected type object, got string"], []) :=
  claim_c4_type_mismatch_short_circuit (.vobj [("b", .vnum 1)]) (.vstr "x") "a"
    [] [] (mergeOptions {}) (by decide) rfl rfl

/-- Claim C3: given that the underlying comparison returns normally,
`assertContains` throws exactly when the comparison of the expected subset
against the container produced a non-empty `differences` or `missingFields`
list; `extraFields` alone never makes it throw. -/
theorem claim_c3_contains_throw_iff :
    ∀ (container subset : JVal) (message : Option String) (o : ComparisonOptions)
      (r : ComparisonResult),
      compareObjects subset container o = .ok r →
      ((∃ msg, assertContains container subset message o = .error msg) ↔
        (r.differences ≠ [] ∨ r.missingFields ≠ [])) := by
  intro container subset message o r h
  rw [assertContains]
  show (∃ msg, (compareObjects subset container o >>= fun result =>
    if result.differences.length > 0 || result.missingFields.length > 0 then
      Except.error (formatComparisonError result
        (some (jsStrOr message "Object does not contain expected fields")))
    else Except.ok ()) = Except.error msg) ↔ _
  rw [h]
  show (∃ msg, (if r.differences.length > 0 || r.missingFields.length > 0 then
    Except.error (formatComparisonError r
      (some (jsStrOr message "Object does not contain expected fields")))
    else Except.ok ()) = Except.error msg) ↔ _
  by_cases hc : r.differences.length > 0 || r.missingFields.length > 0
  · rw [if_pos hc]
    simp only [Bool.or_eq_true, decide_eq_true_eq] at hc
    constructor
    · intro _
      rcases hc with hc | hc
      · exact Or.inl (List.ne_nil_of_length_pos hc)
      · exact Or.inr (List.ne_nil_of_length_pos hc)
    · intro _
      exact ⟨_, rfl⟩
  · rw [if_neg hc]
    simp only [Bool.or_eq_true, decide_eq_true_eq, not_or, Nat.not_lt,
      Nat.le_zero] at hc
    constructor
    · intro ⟨msg, hmsg⟩
      cases hmsg
    · intro hne
      exfalso
      rcases hne with hne | hne
      · exact hne (List.eq_nil_of_length_eq_zero hc.1)
      · exact hne (List.eq_nil_of_length_eq_zero hc.2)

/-- Witness for claim C3 at the spec's example: the container is missing the
subset's field `b`, so the assertion throws. -/
theorem claim_c3_contains_throw_iff_witness :
    (∃ msg, assertContains (.vobj [("a", .vnum 1)])
      (.vobj [("a", .vnum 1), ("b", .vnum 2)]) none {} = .error msg) ↔
      (({ success := false, differences := [], missingFields := ["b"],
          extraFields := [] } : ComparisonResult).differences ≠ [] ∨
       ({ success := false, differences := [], missingFields := ["b"],
          extraFields := [] } : ComparisonResult).missingFields ≠ []) :=
  claim_c3_contains_throw_iff (.vobj [("a", .vnum 1)])
    (.vobj [("a", .vnum 1), ("b", .vnum 2)]) none {}
    { success := false, differences := [], missingFields := ["b"],
      extraFields := [] } rfl

theorem compareArraysLoop_eq_positional :
    ∀ (es rest : List JVal) (asFull : List JVal) (i : Nat) (path : String)
      (d m : List String) (o : ComparisonOptions),
      asFull.drop i = rest → es.length = rest.length →
      compareArraysLoop es asFull i path d m o = positionalSpec es rest i path d m o := by
  intro es
  induction es with
  | nil =>
    intro rest asFull i path d m o _ hlen
    cases rest with
    | nil => rfl
    | cons a rest' => simp at hlen
  | cons e es' ih =>
    intro rest asFull i path d m o hdrop hlen
    cases rest with
    | nil => simp at hlen
    | cons a rest' =>
      obtain ⟨hlt, hget, hdrop', hmem⟩ :=
        drop_cons_facts JVal.vundefined asFull i a rest' hdrop
      rw [List.length_cons] at hlen
      simp only [compareArraysLoop, positionalSpec, hget]
      cases hres : compareObjectRecursive e a (path ++ "[" ++ toString i ++ "]") d m o with
      | error msg => simp [hres, Bind.bind, Except.bind]
      | ok pr =>
        obtain ⟨d', m'⟩ := pr
        simp only [hres, Bind.bind, Except.bind]
        exact ih rest' asFull (i + 1) path d' m' o hdrop' (Nat.succ_injective hlen)

/-- Claim C5: when both sides are arrays of unequal length, `compareArrays`
records exactly one length-mismatch difference and skips element-wise
comparison; when lengths are equal the comparison is exactly the index-wise
lock-step walk (element `i` of expected against element `i` of actual), never
an unordered-multiset comparison. -/
theorem claim_c5_array_positional :
    (∀ (es as : List JVal) (path : String) (d m : List String)
       (o : ComparisonOptions),
      es.length ≠ as.length →
      compareArrays es as path d m o =
        .ok (d ++ [path ++ ": Expected array length " ++ toString es.length ++
          ", got " ++ toString as.length], m)) ∧
    (∀ (es as : List JVal) (path : String) (d m : List String)
       (o : ComparisonOptions),
      es.length = as.length →
      compareArrays es as path d m o = positionalSpec es as 0 path d m o) := by
  constructor
  · intro es as path d m o h
    rw [compareArrays, if_pos (bne_iff_ne.mpr h)]
    rfl
  · intro es as path d m o h
    have hc : (es.length != as.length) = false := by
      rw [h]
      exact bne_self_eq_false _
    rw [compareArrays, hc, if_neg Bool.false_ne_true]
    exact compareArraysLoop_eq_positional es as as 0 path d m o rfl h

/-- Witness for claim C5: a one-element expected array against an empty actual
array yields the single length-mismatch difference. -/
theorem claim_c5_array_positional_witness :
    compareArrays [JVal.vnum 1] [] "p" [] [] {} =
      .ok (["p: Expected array length 1, got 0"], []) :=
  claim_c5_array_positional.1 [JVal.vnum 1] [] "p" [] [] {} (by decide)

/-- Claim C7: a key listed in `options.ignoreFields` is matched by leaf name
and skipped wherever the walks encounter it — both the difference/missing
walk and the extra-field walk step over an ignored key regardless of depth or
value — and the spec's nested `href` example compares successfully. -/
theorem claim_c7_ignore_fields_leaf_name :
    (∀ (k : String) (v : JVal) (rest : List (String × JVal)) (actual : JVal)
       (path : String) (d m : List String) (o : ComparisonOptions),
      ignoresKey o k = true →
      compareObjectsRecursive ((k, v) :: rest) actual path d m o =
        compareObjectsRecursive rest actual path d m o) ∧
    (∀ (k : String) (v : JVal) (rest : List (String × JVal)) (expected : JVal)
       (path : String) (acc : List String) (o : ComparisonOptions),
      ignoresKey o k = true →
      findExtraObjLoop expected ((k, v) :: rest) path acc o =
        findExtraObjLoop expected rest path acc o) ∧
    compareObjects (.vobj [("a", .vobj [("href", .vstr "x")]), ("href", .vstr "y")])
      (.vobj [("a", .vobj [("href", .vstr "z")]), ("href", .vstr "w")])
      { ignoreFields := some ["href"] } =
      .ok { success := true, differences := [], missingFields := [],
            extraFields := [] } := by
  refine ⟨?_, ?_, rfl⟩
  · intro k v rest actual path d m o h
    simp [compareObjectsRecursive, h]
  · intro k v rest expected path acc o h
    simp [findExtraObjLoop, h]

/-- Witness for claim C7: with `href` ignored, the difference walk steps over
a leading `href` field. -/
theorem claim_c7_ignore_fields_leaf_name_witness :
    compareObjectsRecursive [("href", JVal.vnull)] (.vobj []) "" [] []
      { ignoreFields := some ["href"] } =
      compareObjectsRecursive [] (.vobj []) "" [] []
        { ignoreFields := some ["href"] } :=
  claim_c7_ignore_fields_leaf_name.1 "href" JVal.vnull [] (.vobj []) "" [] []
    { ignoreFields := some ["href"] } (by decide)

theorem compareArraysLoop_self (o : ComparisonOptions) (full : List JVal)
    (hsf : ∀ x ∈ full, ∀ (path : String) (d m : List String),
      compareObjectRecursive x x path d m o = .ok (d, m)) :
    ∀ (rest : List JVal) (i : Nat), full.drop i = rest →
      ∀ (path : String) (d m : List String),
        compareArraysLoop rest full i path d m o = .ok (d, m) := by
  intro rest
  induction rest with
  | nil => intro i _ path d m; rfl
  | cons a rest' ih =>
    intro i hdrop path d m
    obtain ⟨hlt, hget, hdrop', hmem⟩ := drop_cons_facts JVal.vundefined full i a rest' hdrop
    simp only [compareArraysLoop, hget, hsf a hmem, Bind.bind, Except.bind]
    exact ih (i + 1) hdrop' path d m

theorem compareObjectsRecursive_self (o : ComparisonOptions)
    (fs : List (String × JVal)) (hu : keysUniqueB fs = true)
    (hsf : ∀ p ∈ fs, ∀ (path : String) (d m : List String),
      compareObjectRecursive p.2 p.2 path d m o = .ok (d, m)) :
    ∀ rest : List (String × JVal), (∀ p ∈ rest, p ∈ fs) →
      ∀ (path : String) (d m : List String),
        compareObjectsRecursive rest (.vobj fs) path d m o = .ok (d, m) := by
  intro rest
  induction rest with
  | nil => intro _ path d m; rfl
  | cons p rest' ih =>
    intro hsub path d m
    have hp : p ∈ fs := hsub p (List.mem_cons_self _ _)
    have hsub' : ∀ q ∈ rest', q ∈ fs := fun q hq => hsub q (List.mem_cons_of_mem _ hq)
    cases hig : ignoresKey o p.1 with
    | true => simp only [compareObjectsRecursive, hig, if_pos rfl]; exact ih hsub' path d m
    | false =>
      simp only [compareObjectsRecursive, hig, Bool.false_eq_true, if_false,
        jsHasKey, JKey.str, hasFieldKey_of_mem hp, Bind.bind, Except.bind,
        if_pos rfl, jsGet, lookupField_of_uniq hu hp, hsf p hp]
      exact ih hsub' path d m

theorem compareObjectRecursive_self (o : ComparisonOptions) :
    ∀ v : JVal, jwf v = true → ∀ (path : String) (d m : List String),
      compareObjectRecursive v v path d m o = .ok (d, m) := by
  apply JVal.indOn (P := fun v => jwf v = true →
    ∀ (path : String) (d m : List String),
      compareObjectRecursive v v path d m o = .ok (d, m))
  · intro _ path d m
    simp [compareObjectRecursive, JVal.isNullB]
  · intro _ path d m
    simp [compareObjectRecursive, JVal.isNullB, JVal.isUndefB]
  · intro b _ path d m
    simp [compareObjectRecursive, JVal.isNullB, JVal.isUndefB, jsTypeof,
      compareScalarValues, jsStrictEq]
  · intro n _ path d m
    simp [compareObjectRecursive, JVal.isNullB, JVal.isUndefB, jsTypeof,
      compareScalarValues, jsStrictEq]
  · intro s _ path d m
    simp [compareObjectRecursive, JVal.isNullB, JVal.isUndefB, jsTypeof,
      compareScalarValues, jsStrictEq]
  · intro es ihm hwf path d m
    rw [jwf] at hwf
    simp only [compareObjectRecursive, JVal.isNullB, JVal.isUndefB, jsTypeof,
      Bool.false_and, Bool.false_eq_true, if_false, bne_self_eq_false]
    exact compareArraysLoop_self o es
      (fun x hx => ihm x hx (jwfList_mem hwf hx)) es 0 rfl path d m
  · intro fs ihm hwf path d m
    rw [jwf, Bool.and_eq_true] at hwf
    simp only [compareObjectRecursive, JVal.isNullB, JVal.isUndefB, jsTypeof,
      Bool.false_and, Bool.false_eq_true, if_false, bne_self_eq_false]
    exact compareObjectsRecursive_self o fs hwf.1
      (fun p hp => ihm p hp (jwfFields_mem hwf.2 hp)) fs (fun p hp => hp) path d m

theorem findExtraObjLoop_self (o : ComparisonOptions)
    (fs : List (String × JVal)) (hu : keysUniqueB fs = true)
    (hsf : ∀ p ∈ fs, ∀ (path : String) (acc : List String),
      findExtraFields p.2 p.2 path acc o = .ok acc) :
    ∀ rest : List (String × JVal), (∀ p ∈ rest, p ∈ fs) →
      ∀ (path : String) (acc : List String),
        findExtraObjLoop (.vobj fs) rest path acc o = .ok acc := by
  intro rest
  induction rest with
  | nil => intro _ path acc; rfl
  | cons p rest' ih =>
    intro hsub path acc
    have hp : p ∈ fs := hsub p (List.mem_cons_self _ _)
    have hsub' : ∀ q ∈ rest', q ∈ fs := fun q hq => hsub q (List.mem_cons_of_mem _ hq)
    cases hig : ignoresKey o p.1 with
    | true => simp only [findExtraObjLoop, hig, if_pos rfl]; exact ih hsub' path acc
    | false =>
      cases hio : p.2.isObjLike with
      | true =>
        simp only [findExtraObjLoop, hig, Bool.false_eq_true, if_false,
          jsHasKey, JKey.str, hasFieldKey_of_mem hp, Bind.bind, Except.bind,
          Bool.not_true, hio, if_pos rfl, jsGet, lookupField_of_uniq hu hp,
          hsf p hp]
        exact ih hsub' path acc
      | false =>
        simp only [findExtraObjLoop, hig, Bool.false_eq_true, if_false,
          jsHasKey, JKey.str, hasFieldKey_of_mem hp, Bind.bind, Except.bind,
          Bool.not_true, hio, if_false]
        exact ih hsub' path acc

theorem findExtraArrLoop_self (o : ComparisonOptions) (full : List JVal)
    (hsf : ∀ x ∈ full, ∀ (path : String) (acc : List String),
      findExtraFields x x path acc o = .ok acc) :
    ∀ (rest : List JVal) (i : Nat), full.drop i = rest →
      ∀ (path : String) (acc : List String),
        findExtraArrLoop (.varr full) rest i path acc o = .ok acc := by
  intro rest
  induction rest with
  | nil => intro i _ path acc; rfl
  | cons a rest' ih =>
    intro i hdrop path acc
    obtain ⟨hlt, hget, hdrop', hmem⟩ := drop_cons_facts JVal.vundefined full i a rest' hdrop
    have hdec : decide (i < full.length) = true := decide_eq_true hlt
    cases hig : ignoresKey o (toString i) with
    | true => simp only [findExtraArrLoop, hig, if_pos rfl]; exact ih (i + 1) hdrop' path acc
    | false =>
      cases hio : a.isObjLike with
      | true =>
        simp only [findExtraArrLoop, hig, Bool.false_eq_true, if_false,
          jsHasKey, hdec, Bind.bind, Except.bind, Bool.not_true, hio,
          if_pos rfl, jsGet, hget, hsf a hmem]
        exact ih (i + 1) hdrop' path acc
      | false =>
        simp only [findExtraArrLoop, hig, Bool.false_eq_true, if_false,
          jsHasKey, hdec, Bind.bind, Except.bind, Bool.not_true, hio, if_false]
        exact ih (i + 1) hdrop' path acc

theorem findExtraFields_self (o : ComparisonOptions) :
    ∀ v : JVal, jwf v = true → ∀ (path : String) (acc : List String),
      findExtraFields v v path acc o = .ok acc := by
  apply JVal.indOn (P := fun v => jwf v = true →
    ∀ (path : String) (acc : List String),
      findExtraFields v v path acc o = .ok acc)
  · intro _ path acc; rfl
  · intro _ path acc; rfl
  · intro b _ path acc; rfl
  · intro n _ path acc; rfl
  · intro s _ path acc; rfl
  · intro es ihm hwf path acc
    rw [jwf] at hwf
    rw [findExtraFields]
    exact findExtraArrLoop_self o es
      (fun x hx => ihm x hx (jwfList_mem hwf hx)) es 0 rfl path acc
  · intro fs ihm hwf path acc
    rw [jwf, Bool.and_eq_true] at hwf
    rw [findExtraFields]
    exact findExtraObjLoop_self o fs hwf.1
      (fun p hp => ihm p hp (jwfFields_mem hwf.2 hp)) fs (fun p hp => hp) path acc

/-- Claim C8: the comparison is reflexive — for every well-formed acyclic tree
`x` (pairwise-distinct keys at every object level), `compareObjects x x {}`
succeeds with no differences, no missing fields and no extra fields. -/
theorem claim_c8_comparator_reflexive :
    ∀ x : JVal, jwf x = true →
      compareObjects x x {} =
        .ok { success := true, differences := [], missingFields := [],
              extraFields := [] } := by
  intro x hwf
  have h1 := compareObjectRecursive_self (mergeOptions {}) x hwf "" [] []
  have h2 := findExtraFields_self (mergeOptions {}) x hwf "" []
  simp [compareObjects, h1, h2, Bind.bind, Except.bind]

/-- Witness for claim C8 at the spec's example tree. -/
theorem claim_c8_comparator_reflexive_witness :
    compareObjects (.vobj [("a", .vnum 1), ("b", .vobj [("c", .vnum 2)])])
      (.vobj [("a", .vnum 1), ("b", .vobj [("c", .vnum 2)])]) {} =
      .ok { success := true, differences := [], missingFields := [],
            extraFields := [] } :=
  claim_c8_comparator_reflexive
    (.vobj [("a", .vnum 1), ("b", .vobj [("c", .vnum 2)])]) (by decide)

/-- A faker oracle that repeats the same draws on every call: a legal
behaviour of a random source, under which the generator has no other input
that could keep identifiers apart. -/
def constFaker : FakerStream :=
  { adjectiveAt := fun _ => "able"
    recentIsoAt := fun _ => "2024-01-01T00:00:00.000Z" }

theorem string_data_inj {s t : String} (h : s.data = t.data) : s = t := by
  cases s with
  | mk d1 =>
    cases t with
    | mk d2 => exact congrArg String.mk h

/-- Claim C9 counterexample: two successive `generateProjectData()` calls in
one process, under a faker stream that repeats its draws, produce the
identical id `able_20240101T000000000Z` — the generated identifiers are a
function of the faker draws alone (no clock reading, no counter), so N calls
are not guaranteed pairwise distinct. -/
theorem claim_c9_counterexample_repeat_draws :
    (runProjectGen constFaker 2 0).map (fun v => jsToString (propGet "id" v)) =
      ["able_20240101T000000000Z", "able_20240101T000000000Z"] ∧
    ¬ List.Pairwise (fun a b => a ≠ b)
        ((runProjectGen constFaker 2 0).map (fun v => jsToString (propGet "id" v))) := by
  have hmap : (runProjectGen constFaker 2 0).map
      (fun v => jsToString (propGet "id" v)) =
      ["able_20240101T000000000Z", "able_20240101T000000000Z"] := rfl
  refine ⟨hmap, fun h => ?_⟩
  rw [hmap] at h
  exact (List.pairwise_cons.mp h).1 _ (List.mem_cons_self _ _) rfl

/-- Claim C9 (amended): the id of a generated project record is exactly the
adjective draw joined by an underscore to the punctuation-stripped recent-date
draw, and — for equal-length date parts — two such ids coincide exactly when
both underlying faker draws coincide.  Distinctness of the identifying values
therefore holds precisely when the faker draws differ, i.e. it is
probabilistic in the random source, not guaranteed by a clock or counter. -/
theorem claim_c9_amended_id_from_draws :
    (∀ (fk : FakerStream) (k : Nat),
      propGet "id" (generateProjectData fk k []).1 =
        .vstr (fk.adjectiveAt (k + 2) ++ "_" ++
          stripDatePunct (fk.recentIsoAt (k + 3)))) ∧
    (∀ a1 t1 a2 t2 : String, t1.length = t2.length →
      (a1 ++ "_" ++ t1 = a2 ++ "_" ++ t2 ↔ (a1 = a2 ∧ t1 = t2))) := by
  constructor
  · intro fk k
    rfl
  · intro a1 t1 a2 t2 hlen
    constructor
    · intro h
      have hd := congrArg String.data h
      simp only [String.data_append] at hd
      rw [List.append_assoc, List.append_assoc] at hd
      have hlen' : ("_".data ++ t1.data).length = ("_".data ++ t2.data).length := by
        simp only [List.length_append]
        have e1 : t1.data.length = t1.length := rfl
        have e2 : t2.data.length = t2.length := rfl
        omega
      obtain ⟨ha, ht⟩ := List.append_inj' hd hlen'
      refine ⟨string_data_inj ha, string_data_inj ?_⟩
      exact List.append_cancel_left ht
    · intro h
      rw [h.1, h.2]

/-- Witness for the amended claim C9 at concrete draws of equal date length. -/
theorem claim_c9_amended_id_from_draws_witness :
    ("a" ++ "_" ++ "t1" = "b" ++ "_" ++ "t2" ↔ ("a" = "b" ∧ "t1" = "t2")) :=
  claim_c9_amended_id_from_draws.2 "a" "t1" "b" "t2" rfl
